import Mathlib

/-!
Verification development for the markdown-to-PDF conversion service.

The service (src/index.js) exposes a `/convert` endpoint that
1. negotiates the request body into a markdown string,
2. renders the markdown into a PDF: it extracts a document title from
   line 0, then turns every remaining line into a layout block
   (level-2 or level-3 heading, blank spacer, or paragraph with
   inline-emphasis stripping), and
3. delivers the PDF bytes: it first tries a Google Drive upload and,
   if that raises, falls back to writing the file into a local
   uploads directory served under `/downloads/`.

The definitions below are a shallow embedding of that code.  JavaScript
string primitives (`startsWith`, `substring`, `trim`, `split`) are
modelled on the underlying character lists; the regular-expression
substitutions used for emphasis stripping are modelled by explicit
scanning functions with the same match semantics (leftmost opener,
nearest closer, global continuation after each match).  The fallible
external effects of the delivery pipeline (OAuth client setup, the
Drive API calls, the local file write) are passed in as explicit
`Except` outcomes, and the list of network calls actually performed is
returned alongside the result.
-/

namespace Markdown2Pdf

/-! ## JavaScript string primitives, modelled on character lists -/

/-- Model of JavaScript `s.startsWith(p)`: the characters of `p` are a
prefix of the characters of `s`. -/
def jsStartsWith (s p : String) : Bool :=
  p.data.isPrefixOf s.data

/-- Model of JavaScript `s.substring(n)`: drop the first `n` characters. -/
def jsSubstring (s : String) (n : Nat) : String :=
  ⟨s.data.drop n⟩

/-- Model of JavaScript `s.trim()`: remove whitespace from both ends. -/
def jsTrim (s : String) : String :=
  ⟨(((s.data.dropWhile Char.isWhitespace).reverse.dropWhile Char.isWhitespace).reverse)⟩

/-- Accumulator pass for `jsSplit`: split a character list at every
newline character, as JavaScript `s.split('\n')` does. -/
def splitNl : List Char → List Char → List (List Char)
  | acc, [] => [acc.reverse]
  | acc, c :: rest =>
    if c = '\n' then acc.reverse :: splitNl [] rest
    else splitNl (c :: acc) rest

/-- Model of JavaScript `s.split('\n')` (src/index.js line 88). -/
def jsSplit (s : String) : List String :=
  (splitNl [] s.data).map fun l => ⟨l⟩

/-! ## Inline emphasis stripping

The source processes a paragraph line with two global regex
substitutions (src/index.js lines 150 and 155):

  processedLine = processedLine.replace(bold-span-regex, content);
  processedLine = processedLine.replace(italic-span-regex, content);

where the bold pattern is star, star, a non-greedy group, star, star,
and the italic pattern is star, a non-greedy group, star.  A global
non-greedy replace finds the leftmost opener, pairs it with the
nearest closer, keeps the inner content verbatim, and resumes
scanning immediately after the closer; an opener with no closer
matches nothing and the remainder of the line is left verbatim.
Lines never contain a newline character (they come from a split on
newlines), so the fact that a regex dot does not match newlines is
vacuous here. -/

/-- Split a character list at the first occurrence of two adjacent
stars, returning the part before and the part after, or `none` when no
two adjacent stars occur. -/
def splitAtDD : List Char → Option (List Char × List Char)
  | [] => none
  | [_] => none
  | a :: b :: rest =>
    if a = '*' ∧ b = '*' then some ([], rest)
    else
      match splitAtDD (b :: rest) with
      | some (pre, post) => some (a :: pre, post)
      | none => none

/-- Split a character list at the first star, returning the part
before and the part after, or `none` when no star occurs. -/
def splitAtStar : List Char → Option (List Char × List Char)
  | [] => none
  | a :: rest =>
    if a = '*' then some ([], rest)
    else
      match splitAtStar rest with
      | some (pre, post) => some (a :: pre, post)
      | none => none

theorem splitAtDD_length : ∀ l pre post, splitAtDD l = some (pre, post) →
    post.length + 2 ≤ l.length := by
  intro l
  induction l with
  | nil => intro pre post h; simp [splitAtDD] at h
  | cons a t ih =>
    intro pre post h
    cases t with
    | nil => simp [splitAtDD] at h
    | cons b rest =>
      rw [splitAtDD] at h
      by_cases hab : a = '*' ∧ b = '*'
      · simp [hab] at h
        obtain ⟨h1, h2⟩ := h
        subst h2
        simp
      · simp [hab] at h
        cases hsp : splitAtDD (b :: rest) with
        | none => rw [hsp] at h; simp at h
        | some p =>
          rw [hsp] at h
          cases p with
          | mk pr po =>
            simp at h
            have := ih pr po hsp
            obtain ⟨h1, h2⟩ := h
            subst h2
            simp at this ⊢
            omega

theorem splitAtStar_length : ∀ l pre post, splitAtStar l = some (pre, post) →
    post.length + 1 ≤ l.length := by
  intro l
  induction l with
  | nil => intro pre post h; simp [splitAtStar] at h
  | cons a t ih =>
    intro pre post h
    rw [splitAtStar] at h
    by_cases ha : a = '*'
    · simp [ha] at h
      obtain ⟨h1, h2⟩ := h
      subst h2
      simp
    · simp [ha] at h
      cases hsp : splitAtStar t with
      | none => rw [hsp] at h; simp at h
      | some p =>
        rw [hsp] at h
        cases p with
        | mk pr po =>
          simp at h
          have := ih pr po hsp
          obtain ⟨h1, h2⟩ := h
          subst h2
          simp at this ⊢
          omega

/-- The bold substitution pass: at each leftmost pair of adjacent
stars, pair it with the nearest later pair of adjacent stars, keep the
content between them verbatim, and continue after the closer; a pair
of adjacent stars with no closer is kept verbatim. -/
def stripBoldAux (l : List Char) : List Char :=
  match l with
  | [] => []
  | [a] => [a]
  | a :: b :: rest =>
    if a = '*' ∧ b = '*' then
      match h : splitAtDD rest with
      | some (pre, post) => pre ++ stripBoldAux post
      | none => a :: b :: rest
    else a :: stripBoldAux (b :: rest)
termination_by l.length
decreasing_by
  · have := splitAtDD_length rest pre post h
    simp
    omega
  · simp

/-- The italic substitution pass: at each leftmost star, pair it with
the nearest later star, keep the content between them verbatim, and
continue after the closer; a star with no closer is kept verbatim. -/
def stripItalicAux (l : List Char) : List Char :=
  match l with
  | [] => []
  | a :: rest =>
    if a = '*' then
      match h : splitAtStar rest with
      | some (pre, post) => pre ++ stripItalicAux post
      | none => a :: rest
    else a :: stripItalicAux rest
termination_by l.length
decreasing_by
  · have := splitAtStar_length rest pre post h
    simp
    omega
  · simp

/-- Inline emphasis stripping applied to a paragraph line: the bold
pass followed by the italic pass (src/index.js lines 146 to 159). -/
def stripEmphasis (s : String) : String :=
  ⟨stripItalicAux (stripBoldAux s.data)⟩

/-! ## Span decompositions of paragraph lines

Statement vocabulary for reasoning about emphasis stripping on whole
lines: a line is decomposed into plain text segments alternating with
emphasis spans, and the claims below relate `stripEmphasis` on the
assembled line to the same line with the span delimiters removed. -/

/-- A single inline emphasis span: bold or italic, with its inner
text. -/
inductive EmphSpan
  | bold (inner : String)
  | italic (inner : String)
deriving DecidableEq

/-- The raw source text of a span, delimiter characters included. -/
def spanRaw : EmphSpan → String
  | EmphSpan.bold s => "**" ++ s ++ "**"
  | EmphSpan.italic s => "*" ++ s ++ "*"

/-- The rendered text of a span: the inner content verbatim, with the
delimiter characters removed. -/
def spanInner : EmphSpan → String
  | EmphSpan.bold s => s
  | EmphSpan.italic s => s

/-- A paragraph line assembled from an initial text segment and a
sequence of spans, each followed by a text segment. -/
def lineOfSpans : String → List (EmphSpan × String) → String
  | g0, [] => g0
  | g0, (sp, g) :: rest => g0 ++ spanRaw sp ++ lineOfSpans g rest

/-- The same line with every span delimiter removed and all inner
content and text segments kept verbatim. -/
def strippedLineOfSpans : String → List (EmphSpan × String) → String
  | g0, [] => g0
  | g0, (sp, g) :: rest => g0 ++ spanInner sp ++ strippedLineOfSpans g rest

/-- The intermediate line after the bold pass only: bold delimiters
removed, italic spans intact. -/
def boldStrippedLineOfSpans : String → List (EmphSpan × String) → String
  | g0, [] => g0
  | g0, (EmphSpan.bold s, g) :: rest => g0 ++ s ++ boldStrippedLineOfSpans g rest
  | g0, (EmphSpan.italic s, g) :: rest =>
    g0 ++ "*" ++ s ++ "*" ++ boldStrippedLineOfSpans g rest

/-- Well-formedness of one span: bold inner text is asterisk-free,
italic inner text is asterisk-free and non-empty (an empty italic span
would read as a bold delimiter). -/
def spanOk : EmphSpan → Prop
  | EmphSpan.bold s => '*' ∉ s.data
  | EmphSpan.italic s => '*' ∉ s.data ∧ s ≠ ""

/-- Well-formedness of a span decomposition: every span is well
formed, every text segment is asterisk-free, and the segment between a
span and a following span is non-empty (so that the delimiters of
distinct spans never touch). -/
def spansOk : List (EmphSpan × String) → Prop
  | [] => True
  | (sp, g) :: rest => spanOk sp ∧ '*' ∉ g.data ∧ (rest = [] ∨ g ≠ "") ∧ spansOk rest

instance decSpanOk : (sp : EmphSpan) → Decidable (spanOk sp)
  | EmphSpan.bold s => inferInstanceAs (Decidable ('*' ∉ s.data))
  | EmphSpan.italic s => inferInstanceAs (Decidable ('*' ∉ s.data ∧ s ≠ ""))

instance decSpansOk : (ps : List (EmphSpan × String)) → Decidable (spansOk ps)
  | [] => isTrue trivial
  | (sp, g) :: rest =>
    haveI : Decidable (spansOk rest) := decSpansOk rest
    inferInstanceAs
      (Decidable (spanOk sp ∧ '*' ∉ g.data ∧ (rest = [] ∨ g ≠ "") ∧ spansOk rest))

/-! ## Renderer: title extraction and block segmentation -/

/-- A typed layout block emitted for one input line. -/
inductive Block
  | heading (level : Nat) (text : String)
  | paragraph (text : String)
  | blank
deriving DecidableEq

/-- Classification of a single non-title line, following the if-else
chain of the line loop (src/index.js lines 133 to 160): a level-2
heading keeps the remainder after the marker verbatim, a level-3
heading likewise, a line that trims to empty is a blank spacer, and
any other line is a paragraph with inline emphasis stripped. -/
def lineToBlock (line : String) : Block :=
  if jsStartsWith line "## " then Block.heading 2 (jsSubstring line 3)
  else if jsStartsWith line "### " then Block.heading 3 (jsSubstring line 4)
  else if jsTrim line = "" then Block.blank
  else Block.paragraph (stripEmphasis line)

/-- Block segmentation over the split lines: the loop skips the line
at index 0 exactly when it begins with the level-1 marker
(src/index.js line 130), and classifies every other line. -/
def parseBlocks : List String → List Block
  | [] => []
  | l0 :: rest =>
    (if jsStartsWith l0 "# " then [] else [lineToBlock l0]) ++ rest.map lineToBlock

/-- Title extraction (src/index.js lines 89 to 92): when line 0 begins
with the level-1 marker the title is the remainder after the two
marker characters, otherwise the fixed default literal. -/
def extractTitle : List String → String
  | [] => "Converted Document"
  | l0 :: _ => if jsStartsWith l0 "# " then jsSubstring l0 2 else "Converted Document"

/-- The renderer front end: split the markdown into lines, extract the
title, and segment the remaining lines into blocks. -/
def render (markdown : String) : String × List Block :=
  (extractTitle (jsSplit markdown), parseBlocks (jsSplit markdown))

/-! ## Delivery pipeline -/

/-- Outcomes of the external effects performed during a Google Drive
upload attempt, passed in explicitly: OAuth2 client setup
(`getOAuth2Client`, a local credential-file read), the `files.create`
call (returning the new file id), the `permissions.create` call, and
the `files.get` call (returning the `webContentLink` field, which the
backend may omit). -/
structure DriveNet where
  oauthInit : Except String Unit
  createFile : Except String String
  setPermission : Except String Unit
  getFileLinks : Except String (Option String)

/-- A network call against the Google Drive API, recorded in the order
performed. -/
inductive DriveAction
  | createFile
  | setPermission
  | getFileLinks
deriving DecidableEq

/-- Model of `hasRefreshToken` (src/index.js lines 408 to 410): the
JavaScript double-negation of the environment variable, which is
truthy exactly for a present, non-empty string. -/
def hasRefreshToken (envRefreshToken : Option String) : Bool :=
  match envRefreshToken with
  | some s => decide (s ≠ "")
  | none => false

/-- The synthesized direct-download URL template used when the backend
does not return a `webContentLink` (src/index.js lines 518 and 527). -/
def driveExportUrl (fileId : String) : String :=
  "https://drive.google.com/uc?export=download&id=" ++ fileId

/-- Model of `uploadToGoogleDrive` (src/index.js lines 436 to 535).
Returns the outcome (the resolved download link, or the thrown error)
together with the list of Drive API calls performed.  The refresh
token is checked before any client setup or network call; the
`permissions.create` failure is caught, logged and ignored; a
`files.get` failure or an absent `webContentLink` both fall back to
the synthesized export URL. -/
def uploadToGoogleDrive (envRefreshToken : Option String) (net : DriveNet) :
    Except String String × List DriveAction :=
  if !hasRefreshToken envRefreshToken then
    (Except.error "Google Drive refresh token not found in environment variables. Please visit /auth/google to set up authentication.", [])
  else
    match net.oauthInit with
    | Except.error e => (Except.error ("Failed to initialize OAuth2 client: " ++ e), [])
    | Except.ok _ =>
      match net.createFile with
      | Except.error e => (Except.error e, [DriveAction.createFile])
      | Except.ok fileId =>
        match net.getFileLinks with
        | Except.ok (some link) =>
          (Except.ok link, [DriveAction.createFile, DriveAction.setPermission, DriveAction.getFileLinks])
        | Except.ok none =>
          (Except.ok (driveExportUrl fileId), [DriveAction.createFile, DriveAction.setPermission, DriveAction.getFileLinks])
        | Except.error _ =>
          (Except.ok (driveExportUrl fileId), [DriveAction.createFile, DriveAction.setPermission, DriveAction.getFileLinks])

/-- Model of `title.replace(non-alphanumeric-regex, underscore)` used
to build the stored file name (src/index.js lines 181 and 442). -/
def sanitizeFileName (title : String) : String :=
  ⟨title.data.map fun c => if c.isAlphanum then c else '_'⟩

/-- The locally stored file name: sanitized title, underscore,
timestamp, `.pdf` extension (src/index.js line 181). -/
def localFileName (title : String) (now : Nat) : String :=
  sanitizeFileName title ++ "_" ++ toString now ++ ".pdf"

/-- The result descriptor returned to the caller on success. -/
structure DeliveryResult where
  downloadUrl : String
  source : String
deriving DecidableEq

/-- Model of the delivery chain in the `/convert` handler
(src/index.js lines 171 to 199): try the Drive upload; on any thrown
error fall back to the local file write and a `/downloads/` URL; when
the local write also throws, the outer catch reports failure. -/
def deliver (driveOutcome : Except String String) (localWrite : Except String Unit)
    (title : String) (now : Nat) : Except String DeliveryResult :=
  match driveOutcome with
  | Except.ok url => Except.ok ⟨url, "google_drive"⟩
  | Except.error _ =>
    match localWrite with
    | Except.ok _ => Except.ok ⟨"/downloads/" ++ localFileName title now, "local_storage"⟩
    | Except.error _ => Except.error "Failed to convert markdown to PDF"

/-! ## Conversion endpoint: request body negotiation -/

/-- A parsed JavaScript object body: the three fields the handler
probes, plus its `JSON.stringify` serialization. -/
structure JsObject where
  markdown : Option String
  content : Option String
  text : Option String
  stringified : String
deriving DecidableEq

/-- The request body as seen by the `/convert` handler after the
body-parsing middleware: a JSON body (possibly null), raw text with
the markdown content type, and for every other content type either a
string body, an object body (the parser default is the empty object),
or a nullish body. -/
inductive ReqBody
  | json (body : Option JsObject)
  | textMarkdown (s : String)
  | rawString (s : String)
  | rawObject (o : JsObject)
  | rawNone
deriving DecidableEq

/-- The observable outcome of the `/convert` handler front end: either
a client error response, or an invocation of the renderer and delivery
pipeline on the negotiated markdown string. -/
inductive ConvertOutcome
  | clientError (msg : String)
  | render (markdown : String)
deriving DecidableEq

/-- JavaScript truthiness of an optional string field: present and
non-empty. -/
def truthyStr : Option String → Option String
  | some s => if s = "" then none else some s
  | none => none

/-- The client error message for a JSON body without a truthy markdown
field (src/index.js line 47). -/
def invalidJsonFormatMsg : String :=
  "Invalid JSON format. Please provide markdown content as \x7b\"markdown\": \"Your markdown here\"\x7d"

/-- Body negotiation (src/index.js lines 41 to 61): a JSON body must
carry a truthy markdown field; a markdown-typed text body is used
directly; otherwise a string body is used directly, an object body
falls through markdown, content, text and finally its JSON
serialization, and only a nullish body is rejected as unsupported. -/
def getMarkdownContent : ReqBody → Except String String
  | ReqBody.json (some o) =>
    match truthyStr o.markdown with
    | some m => Except.ok m
    | none => Except.error invalidJsonFormatMsg
  | ReqBody.json none => Except.error invalidJsonFormatMsg
  | ReqBody.textMarkdown s => Except.ok s
  | ReqBody.rawString s => Except.ok s
  | ReqBody.rawObject o =>
    Except.ok
      (match truthyStr o.markdown with
       | some m => m
       | none =>
         match truthyStr o.content with
         | some c => c
         | none =>
           match truthyStr o.text with
           | some t => t
           | none => o.stringified)
  | ReqBody.rawNone => Except.error "Unsupported content type or format"

/-- The `/convert` handler front end (src/index.js lines 41 to 70):
negotiate the body, reject an empty markdown string, and otherwise
invoke the renderer and delivery pipeline. -/
def handleConvert (b : ReqBody) : ConvertOutcome :=
  match getMarkdownContent b with
  | Except.error msg => ConvertOutcome.clientError msg
  | Except.ok md =>
    if md = "" then ConvertOutcome.clientError "Markdown content is required"
    else ConvertOutcome.render md

/-! ## Helper lemmas about the emphasis-stripping passes -/

theorem splitAtDD_none_of_no_star (l : List Char) (h : '*' ∉ l) : splitAtDD l = none := by
  induction l with
  | nil => rfl
  | cons a t ih =>
    cases t with
    | nil => rfl
    | cons b rest =>
      have ha : a ≠ '*' := fun hc => h (hc ▸ List.mem_cons_self a _)
      have ht : '*' ∉ b :: rest := fun hc => h (List.mem_cons_of_mem a hc)
      rw [splitAtDD, ih ht]
      simp [ha]

theorem splitAtDD_append (b c : List Char) (hb : '*' ∉ b) :
    splitAtDD (b ++ '*' :: '*' :: c) = some (b, c) := by
  induction b with
  | nil => simp [splitAtDD]
  | cons x t ih =>
    have hx : x ≠ '*' := fun hc => hb (hc ▸ List.mem_cons_self x _)
    have ht : '*' ∉ t := fun hc => hb (List.mem_cons_of_mem x hc)
    cases t with
    | nil =>
      simp only [List.cons_append, List.nil_append]
      simp [splitAtDD, hx]
    | cons y t2 =>
      simp only [List.cons_append] at ih ⊢
      rw [splitAtDD, ih ht]
      simp [hx]

theorem splitAtStar_none_of_no_star (l : List Char) (h : '*' ∉ l) : splitAtStar l = none := by
  induction l with
  | nil => rfl
  | cons a t ih =>
    have ha : a ≠ '*' := fun hc => h (hc ▸ List.mem_cons_self a _)
    have ht : '*' ∉ t := fun hc => h (List.mem_cons_of_mem a hc)
    rw [splitAtStar, ih ht]
    simp [ha]

theorem splitAtStar_append (b c : List Char) (hb : '*' ∉ b) :
    splitAtStar (b ++ '*' :: c) = some (b, c) := by
  induction b with
  | nil => simp [splitAtStar]
  | cons x t ih =>
    have hx : x ≠ '*' := fun hc => hb (hc ▸ List.mem_cons_self x _)
    have ht : '*' ∉ t := fun hc => hb (List.mem_cons_of_mem x hc)
    simp only [List.cons_append] at ih ⊢
    rw [splitAtStar, ih ht]
    simp [hx]

theorem stripBoldAux_cons_of_ne (x : Char) (l : List Char) (hx : x ≠ '*') :
    stripBoldAux (x :: l) = x :: stripBoldAux l := by
  cases l with
  | nil => simp [stripBoldAux]
  | cons y r => simp [stripBoldAux, hx]

theorem stripBoldAux_of_no_star (l : List Char) (h : '*' ∉ l) : stripBoldAux l = l := by
  induction l with
  | nil => simp [stripBoldAux]
  | cons a t ih =>
    have ha : a ≠ '*' := fun hc => h (hc ▸ List.mem_cons_self a _)
    have ht : '*' ∉ t := fun hc => h (List.mem_cons_of_mem a hc)
    rw [stripBoldAux_cons_of_ne a t ha, ih ht]

theorem stripItalicAux_cons_of_ne (x : Char) (l : List Char) (hx : x ≠ '*') :
    stripItalicAux (x :: l) = x :: stripItalicAux l := by
  simp [stripItalicAux, hx]

theorem stripItalicAux_of_no_star (l : List Char) (h : '*' ∉ l) : stripItalicAux l = l := by
  induction l with
  | nil => simp [stripItalicAux]
  | cons a t ih =>
    have ha : a ≠ '*' := fun hc => h (hc ▸ List.mem_cons_self a _)
    have ht : '*' ∉ t := fun hc => h (List.mem_cons_of_mem a hc)
    rw [stripItalicAux_cons_of_ne a t ha, ih ht]

theorem stripBoldAux_dd_none (rest : List Char) (h : splitAtDD rest = none) :
    stripBoldAux ('*' :: '*' :: rest) = '*' :: '*' :: rest := by
  simp only [stripBoldAux]
  rw [if_pos (And.intro trivial trivial)]
  split
  · next pre post heq => rw [h] at heq; exact Option.noConfusion heq
  · rfl

theorem stripBoldAux_dd_some (rest pre post : List Char)
    (h : splitAtDD rest = some (pre, post)) :
    stripBoldAux ('*' :: '*' :: rest) = pre ++ stripBoldAux post := by
  simp only [stripBoldAux]
  rw [if_pos (And.intro trivial trivial)]
  split
  · next p q heq =>
    rw [h] at heq
    simp only [Option.some.injEq, Prod.mk.injEq] at heq
    rw [heq.1, heq.2]
  · next heq => rw [h] at heq; exact Option.noConfusion heq

theorem stripItalicAux_star_none (rest : List Char) (h : splitAtStar rest = none) :
    stripItalicAux ('*' :: rest) = '*' :: rest := by
  simp only [stripItalicAux]
  rw [if_pos trivial]
  split
  · next pre post heq => rw [h] at heq; exact Option.noConfusion heq
  · rfl

theorem stripItalicAux_star_some (rest pre post : List Char)
    (h : splitAtStar rest = some (pre, post)) :
    stripItalicAux ('*' :: rest) = pre ++ stripItalicAux post := by
  simp only [stripItalicAux]
  rw [if_pos trivial]
  split
  · next p q heq =>
    rw [h] at heq
    simp only [Option.some.injEq, Prod.mk.injEq] at heq
    rw [heq.1, heq.2]
  · next heq => rw [h] at heq; exact Option.noConfusion heq

theorem stripBoldAux_append_no_star (b rest : List Char) (hb : '*' ∉ b) :
    stripBoldAux (b ++ rest) = b ++ stripBoldAux rest := by
  induction b with
  | nil => simp
  | cons x t ih =>
    have hx : x ≠ '*' := fun hcon => hb (hcon ▸ List.mem_cons_self x _)
    have ht : '*' ∉ t := fun hcon => hb (List.mem_cons_of_mem x hcon)
    simp only [List.cons_append]
    rw [stripBoldAux_cons_of_ne x _ hx, ih ht]

theorem stripItalicAux_append_no_star (b rest : List Char) (hb : '*' ∉ b) :
    stripItalicAux (b ++ rest) = b ++ stripItalicAux rest := by
  induction b with
  | nil => simp
  | cons x t ih =>
    have hx : x ≠ '*' := fun hcon => hb (hcon ▸ List.mem_cons_self x _)
    have ht : '*' ∉ t := fun hcon => hb (List.mem_cons_of_mem x hcon)
    simp only [List.cons_append]
    rw [stripItalicAux_cons_of_ne x _ hx, ih ht]

theorem stripBoldAux_star_cons_of_ne (x : Char) (l : List Char) (hx : x ≠ '*') :
    stripBoldAux ('*' :: x :: l) = '*' :: stripBoldAux (x :: l) := by
  simp [stripBoldAux, hx]

theorem stripBoldAux_single : stripBoldAux ['*'] = ['*'] := by
  simp [stripBoldAux]

theorem stripItalicAux_single : stripItalicAux ['*'] = ['*'] := by
  simp [stripItalicAux, splitAtStar]

theorem stripBoldAux_span_general (a b c : List Char) (ha : '*' ∉ a) (hb : '*' ∉ b) :
    stripBoldAux (a ++ '*' :: '*' :: (b ++ '*' :: '*' :: c)) =
      a ++ (b ++ stripBoldAux c) := by
  rw [stripBoldAux_append_no_star _ _ ha]
  rw [stripBoldAux_dd_some _ b c (splitAtDD_append b c hb)]

theorem stripItalicAux_span_general (a b c : List Char) (ha : '*' ∉ a) (hb : '*' ∉ b) :
    stripItalicAux (a ++ '*' :: (b ++ '*' :: c)) = a ++ (b ++ stripItalicAux c) := by
  rw [stripItalicAux_append_no_star _ _ ha]
  rw [stripItalicAux_star_some _ b c (splitAtStar_append b c hb)]

theorem stripBoldAux_skip_italic (a b c : List Char) (ha : '*' ∉ a) (hb : '*' ∉ b)
    (hbne : b ≠ []) (hc : c.head? ≠ some '*') :
    stripBoldAux (a ++ '*' :: (b ++ '*' :: c)) =
      a ++ '*' :: (b ++ '*' :: stripBoldAux c) := by
  rw [stripBoldAux_append_no_star _ _ ha]
  cases b with
  | nil => exact absurd rfl hbne
  | cons x t =>
    have hx : x ≠ '*' := fun h2 => hb (h2 ▸ List.mem_cons_self x _)
    simp only [List.cons_append]
    rw [stripBoldAux_star_cons_of_ne x _ hx]
    rw [show (x :: (t ++ '*' :: c)) = ((x :: t) ++ ('*' :: c)) from by simp]
    rw [stripBoldAux_append_no_star (x :: t) ('*' :: c) hb]
    cases hcc : c with
    | nil => simp [stripBoldAux]
    | cons d t2 =>
      have hd : d ≠ '*' := by
        intro hdd
        rw [hcc] at hc
        simp [hdd] at hc
      rw [stripBoldAux_star_cons_of_ne d t2 hd]
      simp

/-! ## Lemmas about span-decomposed lines -/

theorem lineOfSpans_cons_data (g0 : String) (sp : EmphSpan) (g : String)
    (rest : List (EmphSpan × String)) :
    (lineOfSpans g0 ((sp, g) :: rest)).data =
      g0.data ++ ((spanRaw sp).data ++ (lineOfSpans g rest).data) := by
  simp [lineOfSpans, String.data_append]

theorem lineOfSpans_bold_data (g0 s g : String) (rest : List (EmphSpan × String)) :
    (lineOfSpans g0 ((EmphSpan.bold s, g) :: rest)).data =
      g0.data ++ '*' :: '*' :: (s.data ++ '*' :: '*' :: (lineOfSpans g rest).data) := by
  have hdd : ("**").data = ['*', '*'] := rfl
  simp [lineOfSpans, spanRaw, String.data_append, hdd]

theorem lineOfSpans_italic_data (g0 s g : String) (rest : List (EmphSpan × String)) :
    (lineOfSpans g0 ((EmphSpan.italic s, g) :: rest)).data =
      g0.data ++ '*' :: (s.data ++ '*' :: (lineOfSpans g rest).data) := by
  have hs : ("*").data = ['*'] := rfl
  simp [lineOfSpans, spanRaw, String.data_append, hs]

theorem boldStripped_bold_data (g0 s g : String) (rest : List (EmphSpan × String)) :
    (boldStrippedLineOfSpans g0 ((EmphSpan.bold s, g) :: rest)).data =
      g0.data ++ (s.data ++ (boldStrippedLineOfSpans g rest).data) := by
  simp [boldStrippedLineOfSpans, String.data_append]

theorem boldStripped_italic_data (g0 s g : String) (rest : List (EmphSpan × String)) :
    (boldStrippedLineOfSpans g0 ((EmphSpan.italic s, g) :: rest)).data =
      g0.data ++ '*' :: (s.data ++ '*' :: (boldStrippedLineOfSpans g rest).data) := by
  have hs : ("*").data = ['*'] := rfl
  simp [boldStrippedLineOfSpans, String.data_append, hs]

theorem strippedLine_cons_data (g0 : String) (sp : EmphSpan) (g : String)
    (rest : List (EmphSpan × String)) :
    (strippedLineOfSpans g0 ((sp, g) :: rest)).data =
      g0.data ++ ((spanInner sp).data ++ (strippedLineOfSpans g rest).data) := by
  simp [strippedLineOfSpans, String.data_append]

theorem head_ne_star_of_lineOfSpans (g : String) (rest : List (EmphSpan × String))
    (tail : List Char) (hg : '*' ∉ g.data) (hcase : rest = [] ∨ g ≠ "")
    (htail : tail.head? ≠ some '*') :
    ((lineOfSpans g rest).data ++ tail).head? ≠ some '*' := by
  by_cases hge : g = ""
  · rcases hcase with hre | hne
    · subst hre
      subst hge
      simpa [lineOfSpans] using htail
    · exact absurd hge hne
  · have hgd : g.data ≠ [] := fun h0 => hge (String.ext (show g.data = ("").data from by rw [h0]))
    cases hgdc : g.data with
    | nil => exact absurd hgdc hgd
    | cons c t =>
      have hcne : c ≠ '*' := fun h2 => hg (hgdc ▸ (h2 ▸ List.mem_cons_self c t))
      cases rest with
      | nil =>
        simp only [lineOfSpans, hgdc, List.cons_append]
        simp [hcne]
      | cons p rs =>
        obtain ⟨sp2, g2⟩ := p
        rw [lineOfSpans_cons_data, hgdc]
        simp only [List.cons_append]
        simp [hcne]

theorem stripBoldAux_lineOfSpans (ps : List (EmphSpan × String)) :
    ∀ (g0 : String) (tail : List Char), '*' ∉ g0.data → spansOk ps →
      tail.head? ≠ some '*' →
      stripBoldAux ((lineOfSpans g0 ps).data ++ tail) =
        (boldStrippedLineOfSpans g0 ps).data ++ stripBoldAux tail := by
  induction ps with
  | nil =>
    intro g0 tail hg0 _ _
    simp only [lineOfSpans, boldStrippedLineOfSpans]
    exact stripBoldAux_append_no_star g0.data tail hg0
  | cons p rest ih =>
    intro g0 tail hg0 hok htail
    obtain ⟨sp, g⟩ := p
    simp only [spansOk] at hok
    obtain ⟨hsp, hg, hgne, hrest⟩ := hok
    cases sp with
    | bold s =>
      simp only [spanOk] at hsp
      rw [lineOfSpans_bold_data]
      rw [show (g0.data ++ '*' :: '*' :: (s.data ++ '*' :: '*' :: (lineOfSpans g rest).data)) ++ tail
            = g0.data ++ '*' :: '*' :: (s.data ++ '*' :: '*' :: ((lineOfSpans g rest).data ++ tail))
          from by simp]
      rw [stripBoldAux_span_general g0.data s.data _ hg0 hsp]
      rw [ih g tail hg hrest htail]
      rw [boldStripped_bold_data]
      simp
    | italic s =>
      simp only [spanOk] at hsp
      obtain ⟨hsin, hsne⟩ := hsp
      rw [lineOfSpans_italic_data]
      rw [show (g0.data ++ '*' :: (s.data ++ '*' :: (lineOfSpans g rest).data)) ++ tail
            = g0.data ++ '*' :: (s.data ++ '*' :: ((lineOfSpans g rest).data ++ tail))
          from by simp]
      have hsdne : s.data ≠ [] :=
        fun h0 => hsne (String.ext (show s.data = ("").data from by rw [h0]))
      have hhead := head_ne_star_of_lineOfSpans g rest tail hg hgne htail
      rw [stripBoldAux_skip_italic g0.data s.data _ hg0 hsin hsdne hhead]
      rw [ih g tail hg hrest htail]
      rw [boldStripped_italic_data]
      simp

theorem stripItalicAux_boldStrippedLine (ps : List (EmphSpan × String)) :
    ∀ (g0 : String) (tail : List Char), '*' ∉ g0.data → spansOk ps →
      stripItalicAux ((boldStrippedLineOfSpans g0 ps).data ++ tail) =
        (strippedLineOfSpans g0 ps).data ++ stripItalicAux tail := by
  induction ps with
  | nil =>
    intro g0 tail hg0 _
    simp only [boldStrippedLineOfSpans, strippedLineOfSpans]
    exact stripItalicAux_append_no_star g0.data tail hg0
  | cons p rest ih =>
    intro g0 tail hg0 hok
    obtain ⟨sp, g⟩ := p
    simp only [spansOk] at hok
    obtain ⟨hsp, hg, hgne, hrest⟩ := hok
    cases sp with
    | bold s =>
      simp only [spanOk] at hsp
      rw [boldStripped_bold_data]
      rw [show (g0.data ++ (s.data ++ (boldStrippedLineOfSpans g rest).data)) ++ tail
            = (g0.data ++ s.data) ++ ((boldStrippedLineOfSpans g rest).data ++ tail)
          from by simp]
      rw [stripItalicAux_append_no_star (g0.data ++ s.data) _
        (by simp [List.mem_append, hg0, hsp])]
      rw [ih g tail hg hrest]
      rw [strippedLine_cons_data]
      simp [spanInner]
    | italic s =>
      simp only [spanOk] at hsp
      obtain ⟨hsin, hsne⟩ := hsp
      rw [boldStripped_italic_data]
      rw [show (g0.data ++ '*' :: (s.data ++ '*' :: (boldStrippedLineOfSpans g rest).data)) ++ tail
            = g0.data ++ '*' :: (s.data ++ '*' :: ((boldStrippedLineOfSpans g rest).data ++ tail))
          from by simp]
      rw [stripItalicAux_span_general g0.data s.data _ hg0 hsin]
      rw [ih g tail hg hrest]
      rw [strippedLine_cons_data]
      simp [spanInner]

/-! ## Helper lemmas about line classification -/

theorem data_of_startsHash {l : String} (h : jsStartsWith l "# " = true) :
    ∃ t, l.data = '#' :: ' ' :: t := by
  unfold jsStartsWith at h
  have hd : ("# ").data = ['#', ' '] := rfl
  rw [hd, List.isPrefixOf_iff_prefix] at h
  obtain ⟨t, ht⟩ := h
  exact ⟨t, ht.symm⟩

theorem not_startsDD_of_startsHash {l : String} (h : jsStartsWith l "# " = true) :
    jsStartsWith l "## " = false := by
  obtain ⟨t, hd⟩ := data_of_startsHash h
  unfold jsStartsWith
  rw [hd]
  rfl

theorem not_startsDDD_of_startsHash {l : String} (h : jsStartsWith l "# " = true) :
    jsStartsWith l "### " = false := by
  obtain ⟨t, hd⟩ := data_of_startsHash h
  unfold jsStartsWith
  rw [hd]
  rfl

theorem trim_ne_empty_of_startsHash {l : String} (h : jsStartsWith l "# " = true) :
    jsTrim l ≠ "" := by
  obtain ⟨t, hd⟩ := data_of_startsHash h
  unfold jsTrim
  rw [hd]
  intro hcon
  have h2 := congrArg String.data hcon
  simp only [List.dropWhile_cons] at h2
  have hws : Char.isWhitespace '#' = false := by decide
  rw [hws] at h2
  simp only [Bool.false_eq_true, if_false] at h2
  have h3 : (('#' :: ' ' :: t).reverse.dropWhile Char.isWhitespace).reverse = [] := h2
  rw [List.reverse_eq_nil_iff, List.dropWhile_eq_nil_iff] at h3
  have h4 := h3 '#' (by simp)
  exact absurd h4 (by decide)

theorem lineToBlock_of_startsHash {l : String} (h : jsStartsWith l "# " = true) :
    lineToBlock l = Block.paragraph (stripEmphasis l) := by
  unfold lineToBlock
  rw [not_startsDD_of_startsHash h, not_startsDDD_of_startsHash h]
  simp [trim_ne_empty_of_startsHash h]

/-! ## Claim C1 -/

/-- Claim C1, counterexample: the claim states that the title is the
trimmed remainder of line 0 after the marker, but the code does not
trim.  For the input whose line 0 is the level-1 marker followed by
text with a trailing space, the extracted title keeps the trailing
space and therefore differs from the trimmed remainder. -/
theorem C1_title_not_trimmed :
    extractTitle (jsSplit "# Hello 
world") = "Hello " ∧
    jsTrim (jsSubstring "# Hello " 2) = "Hello" ∧
    ("Hello " : String) ≠ "Hello" := by
  refine ⟨by decide, by decide, by decide⟩

/-- Claim C1, amended: when line 0 begins with the level-1 marker, the
extracted title is the remainder of line 0 after the two marker
characters taken verbatim (not trimmed), and that line contributes no
block to the emitted block sequence. -/
theorem C1_title_untrimmed_extraction (l0 : String) (rest : List String)
    (h : jsStartsWith l0 "# " = true) :
    extractTitle (l0 :: rest) = jsSubstring l0 2 ∧
    parseBlocks (l0 :: rest) = rest.map lineToBlock := by
  constructor
  · simp [extractTitle, h]
  · simp [parseBlocks, h]

/-- Claim C1, witness: the amended theorem applied to a concrete
heading line with a trailing space. -/
theorem C1_title_untrimmed_extraction_witness :
    jsStartsWith "# Hello " "# " = true ∧
    (extractTitle ["# Hello ", "world"] = jsSubstring "# Hello " 2 ∧
     parseBlocks ["# Hello ", "world"] = ["world"].map lineToBlock) :=
  ⟨by decide, C1_title_untrimmed_extraction "# Hello " ["world"] (by decide)⟩

/-! ## Claim C2 -/

/-- Claim C2, counterexample: the claim states that no emphasis
delimiter characters remain in the rendered paragraph text, but an
asterisk that does not participate in a matched span survives both
substitution passes.  The line star a star b star contains the italic
span star a star, yet its rendered text still contains a star. -/
theorem C2_unmatched_delimiter_remains :
    stripEmphasis "*a*" = "a" ∧
    lineToBlock "*a*b*" = Block.paragraph "ab*" ∧
    '*' ∈ ("ab*").data := by
  have hone : stripEmphasis "*a*" = "a" := by
    have hd : ("*a*").data = ['*', 'a', '*'] := rfl
    have hb : stripBoldAux ['*', 'a', '*'] = ['*', 'a', '*'] := by
      simp [stripBoldAux, splitAtDD]
    have hi : stripItalicAux ['*', 'a', '*'] = ['a'] := by
      simp [stripItalicAux, splitAtStar]
    simp only [stripEmphasis, hd, hb, hi]
  have hcl : lineToBlock "*a*b*" = Block.paragraph (stripEmphasis "*a*b*") := by
    unfold lineToBlock
    rw [if_neg (by decide), if_neg (by decide), if_neg (by decide)]
  have hstrip : stripEmphasis "*a*b*" = "ab*" := by
    have hd : ("*a*b*").data = ['*', 'a', '*', 'b', '*'] := rfl
    have hb : stripBoldAux ['*', 'a', '*', 'b', '*'] = ['*', 'a', '*', 'b', '*'] := by
      simp [stripBoldAux, splitAtDD]
    have hi : stripItalicAux ['*', 'a', '*', 'b', '*'] = ['a', 'b', '*'] := by
      simp [stripItalicAux, splitAtStar]
    simp only [stripEmphasis, hd, hb, hi]
  exact ⟨hone, by rw [hcl, hstrip], by decide⟩

/-- Claim C2, amended: emphasis stripping removes bold-span
delimiters in a first pass and italic-span delimiters in a second,
left-to-right and non-greedily, keeping inner content verbatim.  For
every paragraph line decomposable into asterisk-free text segments
alternating with spans (bold spans with asterisk-free inner text,
italic spans with non-empty asterisk-free inner text, and a non-empty
segment between consecutive spans), the rendered paragraph text is the
line with the delimiter characters of every matched span removed and
all other characters kept verbatim, for arbitrarily many spans; an
asterisk that participates in no matched span, such as a trailing
unpaired delimiter, remains in the output text. -/
theorem C2_matched_spans_stripped (g0 glast : String)
    (ps : List (EmphSpan × String))
    (hg0 : '*' ∉ g0.data) (hps : spansOk ps)
    (hgl : '*' ∉ glast.data) (hglne : glast ≠ "") :
    stripEmphasis (lineOfSpans g0 ps) = strippedLineOfSpans g0 ps ∧
    stripEmphasis (lineOfSpans g0 ps ++ glast ++ "*") =
      strippedLineOfSpans g0 ps ++ glast ++ "*" := by
  have hstar : ("*").data = ['*'] := rfl
  constructor
  · apply String.ext
    show stripItalicAux (stripBoldAux (lineOfSpans g0 ps).data) =
      (strippedLineOfSpans g0 ps).data
    have h1 := stripBoldAux_lineOfSpans ps g0 [] hg0 hps (by simp)
    rw [List.append_nil] at h1
    have h1b : stripBoldAux (lineOfSpans g0 ps).data =
        (boldStrippedLineOfSpans g0 ps).data := by
      rw [h1]
      simp [stripBoldAux]
    rw [h1b]
    have h2 := stripItalicAux_boldStrippedLine ps g0 [] hg0 hps
    rw [List.append_nil] at h2
    rw [h2]
    simp [stripItalicAux]
  · apply String.ext
    show stripItalicAux (stripBoldAux (lineOfSpans g0 ps ++ glast ++ "*").data) =
      (strippedLineOfSpans g0 ps ++ glast ++ "*").data
    have hongl : (glast.data ++ ['*']).head? ≠ some '*' := by
      cases hgd : glast.data with
      | nil => exact absurd (String.ext (show glast.data = ("").data from by rw [hgd])) hglne
      | cons c t =>
        have hcne : c ≠ '*' := fun h2 => hgl (hgd ▸ (h2 ▸ List.mem_cons_self c t))
        simp [hcne]
    rw [show (lineOfSpans g0 ps ++ glast ++ "*").data =
          (lineOfSpans g0 ps).data ++ (glast.data ++ ['*'])
        from by simp [String.data_append, hstar]]
    rw [stripBoldAux_lineOfSpans ps g0 (glast.data ++ ['*']) hg0 hps hongl]
    rw [stripBoldAux_append_no_star glast.data ['*'] hgl, stripBoldAux_single]
    rw [stripItalicAux_boldStrippedLine ps g0 (glast.data ++ ['*']) hg0 hps]
    rw [stripItalicAux_append_no_star glast.data ['*'] hgl, stripItalicAux_single]
    rw [show (strippedLineOfSpans g0 ps ++ glast ++ "*").data =
          (strippedLineOfSpans g0 ps).data ++ (glast.data ++ ['*'])
        from by simp [String.data_append, hstar]]

/-- Claim C2, witness: the amended theorem applied to a line with one
bold span and one italic span, and to the same line extended with a
trailing unpaired delimiter, which remains in the output. -/
theorem C2_matched_spans_stripped_witness :
    spansOk [(EmphSpan.bold "b", " and "), (EmphSpan.italic "i", "")] ∧
    lineOfSpans "see " [(EmphSpan.bold "b", " and "), (EmphSpan.italic "i", "")] =
      "see **b** and *i*" ∧
    strippedLineOfSpans "see " [(EmphSpan.bold "b", " and "), (EmphSpan.italic "i", "")] =
      "see b and i" ∧
    stripEmphasis "see **b** and *i*" = "see b and i" ∧
    stripEmphasis "see **b** and *i*!*" = "see b and i!*" := by
  have hps : spansOk [(EmphSpan.bold "b", " and "), (EmphSpan.italic "i", "")] := by decide
  have hline : lineOfSpans "see "
      [(EmphSpan.bold "b", " and "), (EmphSpan.italic "i", "")] = "see **b** and *i*" := by
    decide
  have hstripped : strippedLineOfSpans "see "
      [(EmphSpan.bold "b", " and "), (EmphSpan.italic "i", "")] = "see b and i" := by
    decide
  have hmain := C2_matched_spans_stripped "see " "!"
    [(EmphSpan.bold "b", " and "), (EmphSpan.italic "i", "")]
    (by decide) hps (by decide) (by decide)
  refine ⟨hps, hline, hstripped, ?_, ?_⟩
  · rw [← hline, ← hstripped]
    exact hmain.1
  · have h2 := hmain.2
    rw [hline, hstripped] at h2
    rw [show ("see **b** and *i*" ++ "!" ++ "*" : String) = "see **b** and *i*!*"
        from by decide] at h2
    rw [show ("see b and i" ++ "!" ++ "*" : String) = "see b and i!*"
        from by decide] at h2
    exact h2

/-! ## Claim C3 -/

/-- Claim C3: when the remote backend raises an error and the local
write succeeds, delivery does not fail: the result names the local
storage backend and its URL is a downloads path; delivery fails only
when both the remote backend and the local write raise an error. -/
theorem C3_delivery_fallback (e title : String) (now : Nat)
    (d : Except String String) (lw : Except String Unit) :
    deliver (Except.error e) (Except.ok ()) title now =
      Except.ok ⟨"/downloads/" ++ localFileName title now, "local_storage"⟩ ∧
    jsStartsWith ("/downloads/" ++ localFileName title now) "/downloads/" = true ∧
    ((∃ msg, deliver d lw title now = Except.error msg) ↔
      ((∃ e1, d = Except.error e1) ∧ (∃ e2, lw = Except.error e2))) := by
  refine ⟨rfl, ?_, ?_⟩
  · unfold jsStartsWith
    rw [String.data_append, List.isPrefixOf_iff_prefix]
    exact List.prefix_append _ _
  · cases d <;> cases lw <;> simp [deliver]

/-! ## Claim C4 -/

/-- Claim C4, counterexample: the claim states that the first
non-empty line is extracted as the title even when preceded by empty
lines, but the code only inspects line 0.  For an input whose line 0
is empty and whose line 1 is a level-1 heading, the title falls back
to the default literal, and the heading line is emitted as a paragraph
block rather than excluded. -/
theorem C4_leading_blank_line_no_title :
    jsSplit "
# T" = ["", "# T"] ∧
    extractTitle (jsSplit "
# T") = "Converted Document" ∧
    parseBlocks (jsSplit "
# T") = [Block.blank, Block.paragraph "# T"] := by
  have h1 : jsSplit "
# T" = ["", "# T"] := by decide
  have hb0 : lineToBlock "" = Block.blank := by decide
  have hcl : lineToBlock "# T" = Block.paragraph (stripEmphasis "# T") := by
    unfold lineToBlock
    rw [if_neg (by decide), if_neg (by decide), if_neg (by decide)]
  have hstrip : stripEmphasis "# T" = "# T" := by
    have hd : ("# T").data = ['#', ' ', 'T'] := rfl
    have hb : stripBoldAux ['#', ' ', 'T'] = ['#', ' ', 'T'] := by
      simp [stripBoldAux]
    have hi : stripItalicAux ['#', ' ', 'T'] = ['#', ' ', 'T'] := by
      simp [stripItalicAux, splitAtStar]
    simp only [stripEmphasis, hd, hb, hi]
  have hsw : jsStartsWith "" "# " = false := by decide
  refine ⟨h1, by decide, ?_⟩
  rw [h1]
  simp [parseBlocks, hsw, hb0, hcl, hstrip]

/-- Claim C4, amended: title extraction inspects only line 0.  When
line 0 is empty the title is the default literal and the empty line
becomes a blank block, and a line matching the level-1 heading syntax
at any later index is neither extracted nor excluded: it becomes a
paragraph block. -/
theorem C4_title_only_from_line_zero (rest : List String) (l : String)
    (h : jsStartsWith l "# " = true) :
    extractTitle ("" :: rest) = "Converted Document" ∧
    parseBlocks ("" :: rest) = Block.blank :: rest.map lineToBlock ∧
    lineToBlock l = Block.paragraph (stripEmphasis l) := by
  have hsw : jsStartsWith "" "# " = false := by decide
  have hb0 : lineToBlock "" = Block.blank := by decide
  refine ⟨by simp [extractTitle, hsw], ?_, lineToBlock_of_startsHash h⟩
  simp [parseBlocks, hsw, hb0]

/-- Claim C4, witness: the amended theorem applied to a heading line
preceded by an empty line. -/
theorem C4_title_only_from_line_zero_witness :
    jsStartsWith "# T" "# " = true ∧
    (extractTitle ["", "# T"] = "Converted Document" ∧
     parseBlocks ["", "# T"] = Block.blank :: ["# T"].map lineToBlock ∧
     lineToBlock "# T" = Block.paragraph (stripEmphasis "# T")) :=
  ⟨by decide, C4_title_only_from_line_zero ["# T"] "# T" (by decide)⟩

/-! ## Claim C5 -/

/-- Claim C5, counterexample: the claim states that a request that is
neither JSON with a markdown field nor markdown-typed text is rejected
with a client error and no renderer invocation, but the handler
accepts such requests: an object body of an unknown content type (the
body parser default is the empty object) is serialized and rendered,
and a string body of an unknown content type is rendered directly. -/
theorem C5_unknown_content_type_not_rejected :
    handleConvert (ReqBody.rawObject ⟨none, none, none, "\x7b\x7d"⟩) =
      ConvertOutcome.render "\x7b\x7d" ∧
    handleConvert (ReqBody.rawString "hello") = ConvertOutcome.render "hello" := by
  constructor <;> rfl

theorem truthyStr_some_ne_empty {x : Option String} {m : String}
    (h : truthyStr x = some m) : m ≠ "" := by
  cases x with
  | none => simp [truthyStr] at h
  | some v =>
    by_cases hv : v = ""
    · simp [truthyStr, hv] at h
    · simp [truthyStr, hv] at h
      subst h
      exact hv

/-- Claim C5, amended: for requests whose body is neither a JSON
object with a truthy markdown field nor markdown-typed text, the
endpoint does not generally reject.  A JSON body without a truthy
markdown field (or a null JSON body) is rejected with the
invalid-format client error.  For other content types the body is
negotiated instead of rejected: a string body is used directly as the
markdown; an object body takes its first truthy field among markdown,
content and text, or else its JSON serialization; only a nullish body
is rejected as an unsupported content type.  In every branch the
derived markdown is rendered when non-empty and rejected with the
required-content client error when empty, so the renderer is invoked
for such requests whenever the derived markdown is non-empty. -/
theorem C5_body_negotiation_amended (s : String) (o : JsObject) :
    (truthyStr o.markdown = none →
      handleConvert (ReqBody.json (some o)) =
        ConvertOutcome.clientError invalidJsonFormatMsg) ∧
    handleConvert (ReqBody.json none) =
      ConvertOutcome.clientError invalidJsonFormatMsg ∧
    (s ≠ "" → handleConvert (ReqBody.rawString s) = ConvertOutcome.render s) ∧
    handleConvert (ReqBody.rawString "") =
      ConvertOutcome.clientError "Markdown content is required" ∧
    (∀ m, truthyStr o.markdown = some m →
      handleConvert (ReqBody.rawObject o) = ConvertOutcome.render m) ∧
    (∀ c, truthyStr o.markdown = none → truthyStr o.content = some c →
      handleConvert (ReqBody.rawObject o) = ConvertOutcome.render c) ∧
    (∀ t, truthyStr o.markdown = none → truthyStr o.content = none →
      truthyStr o.text = some t →
      handleConvert (ReqBody.rawObject o) = ConvertOutcome.render t) ∧
    (truthyStr o.markdown = none → truthyStr o.content = none →
      truthyStr o.text = none → o.stringified ≠ "" →
      handleConvert (ReqBody.rawObject o) = ConvertOutcome.render o.stringified) ∧
    (truthyStr o.markdown = none → truthyStr o.content = none →
      truthyStr o.text = none → o.stringified = "" →
      handleConvert (ReqBody.rawObject o) =
        ConvertOutcome.clientError "Markdown content is required") ∧
    handleConvert ReqBody.rawNone =
      ConvertOutcome.clientError "Unsupported content type or format" := by
  refine ⟨fun hj => ?_, rfl, fun hs => ?_, rfl, fun m hm => ?_, fun c h1 h2 => ?_,
    fun t h1 h2 h3 => ?_, fun h1 h2 h3 h4 => ?_, fun h1 h2 h3 h4 => ?_, rfl⟩
  · simp [handleConvert, getMarkdownContent, hj]
  · simp [handleConvert, getMarkdownContent, hs]
  · simp [handleConvert, getMarkdownContent, hm, truthyStr_some_ne_empty hm]
  · simp [handleConvert, getMarkdownContent, h1, h2, truthyStr_some_ne_empty h2]
  · simp [handleConvert, getMarkdownContent, h1, h2, h3, truthyStr_some_ne_empty h3]
  · simp [handleConvert, getMarkdownContent, h1, h2, h3, h4]
  · simp [handleConvert, getMarkdownContent, h1, h2, h3, h4]

/-- Claim C5, witness: the amended theorem applied to a non-empty
string body, an object body whose truthy markdown field takes
precedence over its other fields, the parser-default empty object
body rendered from its serialization, and the nullish body. -/
theorem C5_body_negotiation_amended_witness :
    (("hello" : String) ≠ "" ∧
     truthyStr (some "mm") = some "mm" ∧
     truthyStr (none : Option String) = none ∧
     ("\x7b\x7d" : String) ≠ "") ∧
    handleConvert (ReqBody.rawString "hello") = ConvertOutcome.render "hello" ∧
    handleConvert (ReqBody.rawObject ⟨some "mm", some "cc", some "tt", "st"⟩) =
      ConvertOutcome.render "mm" ∧
    handleConvert (ReqBody.rawObject ⟨none, none, none, "\x7b\x7d"⟩) =
      ConvertOutcome.render "\x7b\x7d" ∧
    handleConvert ReqBody.rawNone =
      ConvertOutcome.clientError "Unsupported content type or format" :=
  ⟨⟨by decide, by decide, rfl, by decide⟩,
   (C5_body_negotiation_amended "hello"
     ⟨some "mm", some "cc", some "tt", "st"⟩).2.2.1 (by decide),
   (C5_body_negotiation_amended "hello"
     ⟨some "mm", some "cc", some "tt", "st"⟩).2.2.2.2.1 "mm" (by decide),
   (C5_body_negotiation_amended "x"
     ⟨none, none, none, "\x7b\x7d"⟩).2.2.2.2.2.2.2.1 rfl rfl rfl (by decide),
   (C5_body_negotiation_amended "x"
     ⟨none, none, none, "\x7b\x7d"⟩).2.2.2.2.2.2.2.2.2⟩

/-! ## Claim C6 -/

/-- Claim C6: when line 0 does not begin with the level-1 marker, the
title is the fixed default literal and every input line produces
exactly one corresponding block: segmentation is the element-wise
classification of the lines, so no line is dropped. -/
theorem C6_default_title_no_line_dropped (l0 : String) (rest : List String)
    (h : jsStartsWith l0 "# " = false) :
    extractTitle (l0 :: rest) = "Converted Document" ∧
    parseBlocks (l0 :: rest) = (l0 :: rest).map lineToBlock ∧
    (parseBlocks (l0 :: rest)).length = (l0 :: rest).length := by
  have h2 : parseBlocks (l0 :: rest) = (l0 :: rest).map lineToBlock := by
    simp [parseBlocks, h]
  refine ⟨by simp [extractTitle, h], h2, ?_⟩
  rw [h2]
  simp

/-- Claim C6, witness: the theorem applied to a concrete document
whose line 0 is plain text. -/
theorem C6_default_title_no_line_dropped_witness :
    jsStartsWith "plain text" "# " = false ∧
    (extractTitle ["plain text", "", "## h"] = "Converted Document" ∧
     parseBlocks ["plain text", "", "## h"] =
       (["plain text", "", "## h"]).map lineToBlock ∧
     (parseBlocks ["plain text", "", "## h"]).length =
       (["plain text", "", "## h"] : List String).length) :=
  ⟨by decide, C6_default_title_no_line_dropped "plain text" ["", "## h"] (by decide)⟩

/-! ## Claim C7 -/

/-- Claim C7: a JSON request body whose markdown field is the empty
string is rejected with the invalid JSON format client error, and the
handler never reaches the renderer or the delivery pipeline for it. -/
theorem C7_empty_markdown_rejected (o : JsObject) (h : o.markdown = some "") :
    handleConvert (ReqBody.json (some o)) =
      ConvertOutcome.clientError invalidJsonFormatMsg ∧
    ∀ md, handleConvert (ReqBody.json (some o)) ≠ ConvertOutcome.render md := by
  have h1 : handleConvert (ReqBody.json (some o)) =
      ConvertOutcome.clientError invalidJsonFormatMsg := by
    simp [handleConvert, getMarkdownContent, truthyStr, h]
  refine ⟨h1, fun md hcon => ?_⟩
  rw [h1] at hcon
  exact ConvertOutcome.noConfusion hcon

/-- Claim C7, witness: the theorem applied to a concrete JSON object
carrying an empty markdown field. -/
theorem C7_empty_markdown_rejected_witness :
    (⟨some "", none, none, "e"⟩ : JsObject).markdown = some "" ∧
    (handleConvert (ReqBody.json (some ⟨some "", none, none, "e"⟩)) =
       ConvertOutcome.clientError invalidJsonFormatMsg ∧
     ∀ md, handleConvert (ReqBody.json (some ⟨some "", none, none, "e"⟩)) ≠
       ConvertOutcome.render md) :=
  ⟨rfl, C7_empty_markdown_rejected ⟨some "", none, none, "e"⟩ rfl⟩

/-! ## Claim C8 -/

/-- Claim C8: when the refresh credential is absent, the Google Drive
attempt fails before any Drive API network call is performed (the
recorded action list is empty), and the chain advances to the local
backend, which serves the request. -/
theorem C8_missing_token_no_network_fallback (rt : Option String) (net : DriveNet)
    (title : String) (now : Nat) (h : hasRefreshToken rt = false) :
    (uploadToGoogleDrive rt net).2 = [] ∧
    (∃ msg, (uploadToGoogleDrive rt net).1 = Except.error msg) ∧
    deliver (uploadToGoogleDrive rt net).1 (Except.ok ()) title now =
      Except.ok ⟨"/downloads/" ++ localFileName title now, "local_storage"⟩ := by
  simp [uploadToGoogleDrive, h, deliver]

/-- Claim C8, witness: the theorem applied to an absent refresh token
and a Drive stub that would succeed if it were ever called. -/
theorem C8_missing_token_no_network_fallback_witness :
    hasRefreshToken none = false ∧
    ((uploadToGoogleDrive none ⟨Except.ok (), Except.ok "fileid", Except.ok (), Except.ok none⟩).2 = [] ∧
     (∃ msg, (uploadToGoogleDrive none ⟨Except.ok (), Except.ok "fileid", Except.ok (), Except.ok none⟩).1 = Except.error msg) ∧
     deliver (uploadToGoogleDrive none ⟨Except.ok (), Except.ok "fileid", Except.ok (), Except.ok none⟩).1 (Except.ok ()) "doc" 7 =
       Except.ok ⟨"/downloads/" ++ localFileName "doc" 7, "local_storage"⟩) :=
  ⟨rfl, C8_missing_token_no_network_fallback none
    ⟨Except.ok (), Except.ok "fileid", Except.ok (), Except.ok none⟩ "doc" 7 rfl⟩

/-! ## Claim C9 -/

/-- Claim C9: when the file is created but setting the public
permission raises, the upload still succeeds: the permission call is
attempted, the link lookup proceeds, the resolved URL is the backend
provided content link or else the synthesized export URL from the file
id, and the delivery result names the remote backend. -/
theorem C9_permission_failure_tolerated (rt : Option String) (fid permErr : String)
    (links : Except String (Option String)) (lw : Except String Unit)
    (title : String) (now : Nat) (hrt : hasRefreshToken rt = true) :
    (uploadToGoogleDrive rt ⟨Except.ok (), Except.ok fid, Except.error permErr, links⟩).1 =
      Except.ok (match links with
        | Except.ok (some link) => link
        | Except.ok none => driveExportUrl fid
        | Except.error _ => driveExportUrl fid) ∧
    (uploadToGoogleDrive rt ⟨Except.ok (), Except.ok fid, Except.error permErr, links⟩).2 =
      [DriveAction.createFile, DriveAction.setPermission, DriveAction.getFileLinks] ∧
    deliver (uploadToGoogleDrive rt ⟨Except.ok (), Except.ok fid, Except.error permErr, links⟩).1
        lw title now =
      Except.ok ⟨(match links with
        | Except.ok (some link) => link
        | Except.ok none => driveExportUrl fid
        | Except.error _ => driveExportUrl fid), "google_drive"⟩ := by
  cases links with
  | ok o => cases o <;> simp [uploadToGoogleDrive, hrt, deliver]
  | error err => simp [uploadToGoogleDrive, hrt, deliver]

/-- Claim C9, witness: the theorem applied to a present refresh token,
a successful file creation, a failing permission call and a failing
link lookup, resolving to the synthesized export URL. -/
theorem C9_permission_failure_tolerated_witness :
    hasRefreshToken (some "tok") = true ∧
    ((uploadToGoogleDrive (some "tok") ⟨Except.ok (), Except.ok "fid", Except.error "denied", Except.error "boom"⟩).1 =
       Except.ok (driveExportUrl "fid") ∧
     (uploadToGoogleDrive (some "tok") ⟨Except.ok (), Except.ok "fid", Except.error "denied", Except.error "boom"⟩).2 =
       [DriveAction.createFile, DriveAction.setPermission, DriveAction.getFileLinks] ∧
     deliver (uploadToGoogleDrive (some "tok") ⟨Except.ok (), Except.ok "fid", Except.error "denied", Except.error "boom"⟩).1
         (Except.ok ()) "doc" 7 =
       Except.ok ⟨driveExportUrl "fid", "google_drive"⟩) :=
  ⟨by decide, C9_permission_failure_tolerated (some "tok") "fid" "denied"
    (Except.error "boom") (Except.ok ()) "doc" 7 (by decide)⟩

/-! ## Claim C10 -/

/-- Claim C10: a line beginning with the level-2 marker becomes a
heading whose text is the remainder after the marker taken verbatim,
likewise for the level-3 marker, and inline emphasis stripping is
applied only to paragraph lines; since heading text is the verbatim
remainder, any emphasis delimiters inside a heading line are kept. -/
theorem C10_heading_text_verbatim (l : String) :
    (jsStartsWith l "## " = true → lineToBlock l = Block.heading 2 (jsSubstring l 3)) ∧
    (jsStartsWith l "## " = false → jsStartsWith l "### " = true →
        lineToBlock l = Block.heading 3 (jsSubstring l 4)) ∧
    (jsStartsWith l "## " = false → jsStartsWith l "### " = false → jsTrim l ≠ "" →
        lineToBlock l = Block.paragraph (stripEmphasis l)) := by
  refine ⟨fun h2 => ?_, fun h2 h3 => ?_, fun h2 h3 ht => ?_⟩
  · simp [lineToBlock, h2]
  · simp [lineToBlock, h2, h3]
  · simp [lineToBlock, h2, h3, ht]

/-- Claim C10, witness: the theorem applied to a level-2 heading line
containing bold delimiters, which are kept verbatim in the heading
text. -/
theorem C10_heading_text_verbatim_witness :
    jsStartsWith "## **bold** here" "## " = true ∧
    jsSubstring "## **bold** here" 3 = "**bold** here" ∧
    lineToBlock "## **bold** here" = Block.heading 2 (jsSubstring "## **bold** here" 3) :=
  ⟨by decide, by decide,
   (C10_heading_text_verbatim "## **bold** here").1 (by decide)⟩

end Markdown2Pdf
